import Mathlib

/-!
Verification of the `ur` io_uring wrapper library (Rust) against its
natural-language specification.  The Rust sources are shallowly embedded:
`u32`/`u64` machine words become `Nat` with explicit wrapping modulo `2^32`
(resp. `2^64`), the queue views become explicit state records, and the
kernel-facing syscalls become traces / oracles.  Every definition is
translated from the source files (`src/syscall.rs`, `src/sys.rs`,
`src/sq.rs`, `src/cq.rs`, `src/params.rs`, `src/uring.rs`, `src/lib.rs`);
the one exception is `Ur.cvt`, whose defining module is absent from the
sources and which is therefore modelled from the spec (see its docstring).
-/

set_option autoImplicit false

namespace Ur

/-- `2^32`, the modulus of `u32` arithmetic. -/
def two32 : Nat := 4294967296

/-- `2^64`, the modulus of `u64` arithmetic. -/
def two64 : Nat := 18446744073709551616

/-- Wrapping `u32` addition (`u32::wrapping_add`). -/
def wadd (a b : Nat) : Nat := (a + b) % two32

/-- Wrapping `u32` subtraction (`u32::wrapping_sub`). -/
def wsub (a b : Nat) : Nat := (a + (two32 - b % two32)) % two32

theorem wadd_lt (a b : Nat) : wadd a b < two32 := by
  unfold wadd two32; omega

theorem wsub_lt (a b : Nat) : wsub a b < two32 := by
  unfold wsub two32; omega

/-- Cancellation for wrapped counters: the wrapping distance from `t` to
`t + k` is `k` itself, for in-range values. -/
theorem wsub_wadd (t k : Nat) (ht : t < two32) (hk : k < two32) :
    wsub (wadd t k) t = k := by
  unfold wsub wadd two32 at *
  omega

theorem wsub_self (t : Nat) (ht : t < two32) : wsub t t = 0 := by
  unfold wsub two32 at *
  omega

theorem wadd_zero (t : Nat) (ht : t < two32) : wadd t 0 = t := by
  unfold wadd two32 at *
  omega

/-! ### Syscall numbers (src/syscall.rs lines 10-17, src/sys.rs lines 296-337)

Both syscall shims hard-code the same three numbers; each wrapper passes
its constant as the first argument of `libc::syscall`. -/

/-- `__NR_io_uring_register` as defined in src/syscall.rs line 11 and
src/sys.rs line 304. -/
def NR_io_uring_register : Nat := 425

/-- `__NR_io_uring_setup` as defined in src/syscall.rs line 14 and
src/sys.rs line 312. -/
def NR_io_uring_setup : Nat := 426

/-- `__NR_io_uring_enter` as defined in src/syscall.rs line 17 and
src/sys.rs line 326. -/
def NR_io_uring_enter : Nat := 427

/-- The `(syscall number, entries)` pair the setup wrapper
(`sys::io_uring_setup`, src/sys.rs line 310) hands to the `syscall`
instruction. -/
def io_uring_setup_trace (entries : Nat) : Nat × Nat :=
  (NR_io_uring_setup, entries)

/-- The `(syscall number, fd, to_submit, min_complete, flags)` tuple the
enter wrapper (`sys::io_uring_enter`, src/sys.rs line 318) hands to the
`syscall` instruction. -/
def io_uring_enter_trace (fd to_submit min_complete flags : Nat) :
    Nat × Nat × Nat × Nat × Nat :=
  (NR_io_uring_enter, fd, to_submit, min_complete, flags)

/-- The `(syscall number, fd, opcode, nr_args)` tuple the register wrapper
(`sys::io_uring_register`, src/sys.rs line 297) hands to the `syscall`
instruction. -/
def io_uring_register_trace (fd opcode nr_args : Nat) :
    Nat × Nat × Nat × Nat :=
  (NR_io_uring_register, fd, opcode, nr_args)

/-! ### Poll event encoding (src/sq.rs lines 107-114)

`Entry::set_poll_events` stores the mask unchanged on a little-endian
host and applies `u32::reverse_bits` on a big-endian host. -/

/-- `u32::reverse_bits`: bit `i` of the input becomes bit `31 - i`. -/
def reverseBits32 (x : Nat) : Nat :=
  (List.range 32).foldl (fun acc i => acc + (if x.testBit i then 2 ^ (31 - i) else 0)) 0

/-- Byte swap of a `u32` (`u32::swap_bytes`), i.e. re-ordering the four
bytes; this is what conversion to little-endian storage performs on a
big-endian host. -/
def swapBytes32 (x : Nat) : Nat :=
  (x % 256) * 16777216 + (x / 256 % 256) * 65536 + (x / 65536 % 256) * 256 + x / 16777216 % 256

/-- The value `Entry::set_poll_events` (src/sq.rs lines 107-114) stores into
the entry's op-flags word, as a function of the host endianness
(`cfg!(target_endian = "big")`) and the mask. -/
def set_poll_events (bigEndian : Bool) (poll_events : Nat) : Nat :=
  if bigEndian then reverseBits32 poll_events else poll_events

/-! ### Builders (src/params.rs lines 106-200, src/lib.rs lines 34-75) -/

/-- `UringBuilder` (src/params.rs lines 106-114). -/
structure UringBuilder where
  entries : Nat
  cq_entries : Nat
  flags : Nat
  sq_thread_cpu : Nat
  sq_thread_idle : Nat
  wq_fd : Nat
deriving DecidableEq

/-- `UringBuilder::new` (src/params.rs lines 117-127), reached from
`Uring::entries` (src/uring.rs lines 176-179). -/
def UringBuilder.new (entries : Nat) : UringBuilder :=
  { entries := entries, cq_entries := 0, flags := 0,
    sq_thread_cpu := 0, sq_thread_idle := 0, wq_fd := 0 }

/-- The `(syscall number, entries)` pair that `UringBuilder::try_build`
(src/params.rs lines 176-182) hands to the setup syscall: `try_build`
calls `self.setup(&mut params)` which calls
`sys::io_uring_setup(self.entries, params)` (src/params.rs line 197). -/
def UringBuilder.tryBuildSetupTrace (b : UringBuilder) : Nat × Nat :=
  io_uring_setup_trace b.entries

/-- Iteration for `nextPow2`: double the accumulator until it reaches
`n` (the fuel is always sufficient at `nextPow2`'s call site). -/
def pow2geAux : Nat → Nat → Nat → Nat
  | _, 0, acc => acc
  | n, fuel + 1, acc => if n ≤ acc then acc else pow2geAux n fuel (2 * acc)

/-- `usize::next_power_of_two` as used by src/lib.rs line 59: the
smallest power of two that is greater than or equal to the argument
(with `nextPow2 0 = 1`). -/
def nextPow2 (n : Nat) : Nat := pow2geAux n n 1

/-- The value the `entries` setter of the second builder in the tree,
`IoUringBuilder::entries` (src/lib.rs lines 52-61), records in its
`entries` field: `entries.next_power_of_two()`, after asserting
`1 <= entries && entries <= 4096`. -/
def ioUringBuilderEntriesField (n : Nat) : Nat := nextPow2 n

/-! ### Submission queue view (src/sq.rs)

`sq::Entry` is the 64-byte raw submission record; `sq::Queue` is the view
over the kernel-shared ring words plus the private shadows.  The shared
words (`khead`, `ktail`, `kflags`, `kdropped`) and the entry array are
folded into the state record so that loads and stores become field reads
and functional updates. -/

/-- `sq::Entry` (src/sq.rs lines 61-79).  The `op_flags` union is kept as
its raw 32-bit word. -/
structure SqEntry where
  opcode : Nat
  flags : Nat
  ioprio : Nat
  fd : Int
  off_addr2 : Nat
  addr_splice_off_in : Nat
  len : Nat
  op_flags : Nat
  user_data : Nat
  buf_index_group : Nat
  personality : Nat
  splice_fd_in : Int
  pad2a : Nat
  pad2b : Nat
deriving DecidableEq

/-- An all-zero submission record (the content `prep_rw` writes before the
caller's fields are substituted in). -/
def SqEntry.shaped (opcode : Nat) (fd : Int) (addr len offset : Nat) : SqEntry :=
  { opcode := opcode, flags := 0, ioprio := 0, fd := fd, off_addr2 := offset,
    addr_splice_off_in := addr, len := len, op_flags := 0, user_data := 0,
    buf_index_group := 0, personality := 0, splice_fd_in := 0,
    pad2a := 0, pad2b := 0 }

/-- `sq::Queue` (src/sq.rs lines 167-185): shared ring words, ring
geometry, the mmapped entry array and the private shadow counters. -/
structure SqState where
  khead : Nat
  ktail : Nat
  kring_mask : Nat
  kring_entries : Nat
  kflags : Nat
  kdropped : Nat
  slots : Nat → SqEntry
  khead_shadow : Nat
  ktail_shadow : Nat
  sqe_head : Nat
  sqe_tail : Nat

/-- `Queue::vacate_entry` (src/sq.rs lines 238-250): the fullness test is
`sqe_tail.wrapping_sub(khead_shadow) == kring_entries`; when it first
fires the shared head is re-loaded (acquire) into the shadow and the test
retried once.  On success the slot index `sqe_tail & kring_mask` is
handed out and `sqe_tail` is bumped (wrapping). -/
def vacate_entry (s : SqState) : Option Nat × SqState :=
  let s1 := if wsub s.sqe_tail s.khead_shadow = s.kring_entries
            then { s with khead_shadow := s.khead } else s
  if wsub s1.sqe_tail s1.khead_shadow = s1.kring_entries then (none, s1)
  else (some (s1.sqe_tail &&& s1.kring_mask),
        { s1 with sqe_tail := wadd s1.sqe_tail 1 })

/-- `Queue::prep_rw` (src/sq.rs lines 252-281): reserve a slot via
`vacate_entry` and, on success, initialise every header field of the
reserved record. -/
def prep_rw (s : SqState) (opcode : Nat) (fd : Int) (addr len offset : Nat) :
    Bool × SqState :=
  match vacate_entry s with
  | (none, s1) => (false, s1)
  | (some idx, s1) =>
      (true, { s1 with
                 slots := fun i =>
                   if i = idx then SqEntry.shaped opcode fd addr len offset
                   else s1.slots i })

/-- `Queue::flush` (src/sq.rs lines 283-295): publish `sqe_tail − sqe_head`
new entries by adding them (wrapping) to the tail shadow and storing the
shadow into the shared tail word (release); snap `sqe_head` to
`sqe_tail`; re-load the shared head (acquire); return the wrapping
in-flight count `ktail_shadow − khead_shadow`. -/
def flush (s : SqState) : Nat × SqState :=
  let s1 :=
    if s.sqe_head ≠ s.sqe_tail then
      let kt := wadd s.ktail_shadow (wsub s.sqe_tail s.sqe_head)
      { s with sqe_head := s.sqe_tail, ktail_shadow := kt, ktail := kt }
    else s
  let s2 := { s1 with khead_shadow := s1.khead }
  (wsub s2.ktail_shadow s2.khead_shadow, s2)

/-- `Queue::need_wakeup` (src/sq.rs lines 297-300): relaxed load of the
shared SQ flags word tested against `NEED_WAKEUP = 1 << 0`. -/
def need_wakeup (kflags : Nat) : Bool := kflags &&& 1 ≠ 0

/-- Iterated reservation: the state after `n` consecutive
`vacate_entry` calls (dropping the returned slots). -/
def vacateIter (s : SqState) : Nat → SqState
  | 0 => s
  | n + 1 => (vacate_entry (vacateIter s n)).2

/-- A concrete fresh submission view: 4 entries, mask 3, every counter and
shared word zero (the state `sq::Queue::new` builds for a fresh ring). -/
def sqExample : SqState :=
  { khead := 0, ktail := 0, kring_mask := 3, kring_entries := 4,
    kflags := 0, kdropped := 0, slots := fun _ => SqEntry.shaped 0 (-1) 0 0 0,
    khead_shadow := 0, ktail_shadow := 0, sqe_head := 0, sqe_tail := 0 }

theorem wadd_wadd (t a b : Nat) : wadd (wadd t a) b = wadd t (a + b) := by
  unfold wadd two32
  omega

theorem wadd_wsub_cancel (a b : Nat) (ha : a < two32) (hb : b < two32) :
    wadd a (wsub b a) = b := by
  unfold wadd wsub two32 at *
  omega

/-- Under a kernel head that never moves, `k ≤ ring_entries` reservations
from an empty ring only advance `sqe_tail`, by one each. -/
theorem vacateIter_eq (s : SqState)
    (hempty : s.sqe_tail = s.khead_shadow)
    (ht : s.sqe_tail < two32)
    (he : s.kring_entries < two32) :
    ∀ k, k ≤ s.kring_entries →
      vacateIter s k = { s with sqe_tail := wadd s.sqe_tail k } := by
  intro k
  induction k with
  | zero =>
      intro _
      rw [wadd_zero s.sqe_tail ht]
      rfl
  | succ n ih =>
      intro hn
      have hn' : n ≤ s.kring_entries := Nat.le_of_succ_le hn
      have hlt : n < s.kring_entries := Nat.lt_of_succ_le hn
      rw [vacateIter, ih hn']
      have hshadow :
          ({ s with sqe_tail := wadd s.sqe_tail n } : SqState).khead_shadow
            = s.khead_shadow := rfl
      have hcheck : wsub (wadd s.sqe_tail n) s.khead_shadow = n := by
        rw [← hempty]
        exact wsub_wadd s.sqe_tail n ht (Nat.lt_trans hlt he)
      have hne : wsub (wadd s.sqe_tail n) s.khead_shadow ≠ s.kring_entries := by
        rw [hcheck]; exact Nat.ne_of_lt hlt
      simp [vacate_entry, hshadow, hne, wadd_wadd]

/-- C4: reserving a submission slot fails exactly when the ring is full.
The fullness test is `sqe_tail − head_shadow == ring_entries` (wrapping);
when it first fires the shared head is re-loaded (acquire) into the
shadow and the test retried once.  Consequently, from an empty ring whose
kernel head never moves, every one of the first `ring_entries`
reservations succeeds and the reservation after those returns none. -/
theorem C4_sq_reserve_fullness (s : SqState)
    (hempty : s.sqe_tail = s.khead_shadow)
    (hhead : s.khead = s.khead_shadow)
    (ht : s.sqe_tail < two32)
    (he : s.kring_entries < two32) :
    (∀ q : SqState,
      ((vacate_entry q).1 = none ↔
        (wsub q.sqe_tail q.khead_shadow = q.kring_entries ∧
         wsub q.sqe_tail q.khead = q.kring_entries)) ∧
      (vacate_entry q).2.khead_shadow =
        (if wsub q.sqe_tail q.khead_shadow = q.kring_entries then q.khead
         else q.khead_shadow))
    ∧ (∀ k, k < s.kring_entries →
        ((vacate_entry (vacateIter s k)).1).isSome = true)
    ∧ (vacate_entry (vacateIter s s.kring_entries)).1 = none := by
  refine ⟨?_, ?_, ?_⟩
  · intro q
    by_cases h1 : wsub q.sqe_tail q.khead_shadow = q.kring_entries
    · by_cases h2 : wsub q.sqe_tail q.khead = q.kring_entries
      · simp [vacate_entry, h1, h2]
      · simp [vacate_entry, h1, h2]
    · simp [vacate_entry, h1]
  · intro k hk
    rw [vacateIter_eq s hempty ht he k (Nat.le_of_lt hk)]
    have hcheck : wsub (wadd s.sqe_tail k) s.khead_shadow = k := by
      rw [← hempty]
      exact wsub_wadd s.sqe_tail k ht (Nat.lt_trans hk he)
    have hne : wsub (wadd s.sqe_tail k) s.khead_shadow ≠ s.kring_entries := by
      rw [hcheck]; exact Nat.ne_of_lt hk
    simp [vacate_entry, hne]
  · rw [vacateIter_eq s hempty ht he s.kring_entries le_rfl]
    have hcheck : wsub (wadd s.sqe_tail s.kring_entries) s.khead_shadow
        = s.kring_entries := by
      rw [← hempty]
      exact wsub_wadd s.sqe_tail s.kring_entries ht he
    have hcheck2 : wsub (wadd s.sqe_tail s.kring_entries) s.khead
        = s.kring_entries := by
      rw [hhead, ← hempty]
      exact wsub_wadd s.sqe_tail s.kring_entries ht he
    simp [vacate_entry, hcheck, hcheck2]

/-- Spot check for C4: on a fresh 4-entry ring every one of the first four
reservations succeeds and the fifth returns none. -/
theorem C4_sq_reserve_fullness_spot :
    ((vacate_entry (vacateIter sqExample 3)).1).isSome = true ∧
    (vacate_entry (vacateIter sqExample 4)).1 = none := by
  have h := C4_sq_reserve_fullness sqExample rfl rfl (by decide) (by decide)
  exact ⟨h.2.1 3 (by decide), h.2.2⟩

/-- C5: under the view invariant (the tail shadow tracks `sqe_head` and
the shared tail word holds the shadow, both true of a fresh ring and
preserved by every operation), `flush` adds `sqe_tail − sqe_head`
(wrapping) to the tail shadow, stores the shadow into the shared tail
word — which therefore equals `sqe_tail` afterwards — snaps `sqe_head` to
`sqe_tail`, re-loads the kernel head into the head shadow, and returns
the wrapping in-flight count. -/
theorem C5_flush_publishes_tail (s : SqState)
    (hts : s.ktail_shadow = s.sqe_head)
    (hkt : s.ktail = s.ktail_shadow)
    (h1 : s.sqe_tail < two32)
    (h2 : s.sqe_head < two32) :
    (flush s).2.ktail = s.sqe_tail
    ∧ (flush s).2.ktail_shadow = wadd s.ktail_shadow (wsub s.sqe_tail s.sqe_head)
    ∧ (flush s).2.ktail = (flush s).2.ktail_shadow
    ∧ (flush s).2.sqe_head = s.sqe_tail
    ∧ (flush s).2.sqe_tail = s.sqe_tail
    ∧ (flush s).2.khead_shadow = s.khead
    ∧ (flush s).1 = wsub (flush s).2.ktail_shadow (flush s).2.khead_shadow
    ∧ (flush s).2.ktail_shadow = (flush s).2.sqe_head := by
  have h3 : s.ktail_shadow < two32 := hts ▸ h2
  by_cases hne : s.sqe_head = s.sqe_tail
  · simp [flush, hne, hts, hkt, wsub_self s.sqe_tail h1, wadd_zero s.sqe_tail h1]
  · have hcancel : wadd s.ktail_shadow (wsub s.sqe_tail s.sqe_head) = s.sqe_tail := by
      rw [hts]
      exact wadd_wsub_cancel s.sqe_head s.sqe_tail h2 h1
    simp [flush, hne, hcancel]

/-- Spot check for C5: flushing one freshly reserved entry publishes tail
`1` and reports one in-flight entry. -/
theorem C5_flush_publishes_tail_spot :
    (flush { sqExample with sqe_tail := 1 }).2.ktail = 1 ∧
    (flush { sqExample with sqe_tail := 1 }).2.khead_shadow = 0 := by
  have h := C5_flush_publishes_tail { sqExample with sqe_tail := 1 }
    rfl rfl (by decide) (by decide)
  exact ⟨h.1, h.2.2.2.2.2.1⟩

/-- C10: when `prep_rw` fails to reserve a slot, the queue state is
unchanged except that the head shadow may have been refreshed from the
shared head: `sqe_tail`, the shared tail word, the tail shadow,
`sqe_head` and every entry slot are exactly as before.  On success, the
counters change only by `sqe_tail` advancing by exactly one, the reserved
slot (and no other) is rewritten with the shaped header, and the head
shadow again is either untouched or refreshed. -/
theorem C10_prep_rw_frame (s : SqState) (opcode : Nat) (fd : Int)
    (addr len offset : Nat) :
    ((prep_rw s opcode fd addr len offset).1 = false →
      (prep_rw s opcode fd addr len offset).2.sqe_tail = s.sqe_tail
      ∧ (prep_rw s opcode fd addr len offset).2.ktail = s.ktail
      ∧ (prep_rw s opcode fd addr len offset).2.ktail_shadow = s.ktail_shadow
      ∧ (prep_rw s opcode fd addr len offset).2.sqe_head = s.sqe_head
      ∧ (prep_rw s opcode fd addr len offset).2.slots = s.slots
      ∧ ((prep_rw s opcode fd addr len offset).2.khead_shadow = s.khead_shadow
         ∨ (prep_rw s opcode fd addr len offset).2.khead_shadow = s.khead))
    ∧ ((prep_rw s opcode fd addr len offset).1 = true →
      (prep_rw s opcode fd addr len offset).2.sqe_tail = wadd s.sqe_tail 1
      ∧ (prep_rw s opcode fd addr len offset).2.ktail = s.ktail
      ∧ (prep_rw s opcode fd addr len offset).2.ktail_shadow = s.ktail_shadow
      ∧ (prep_rw s opcode fd addr len offset).2.sqe_head = s.sqe_head
      ∧ (∀ i, i ≠ s.sqe_tail &&& s.kring_mask →
          (prep_rw s opcode fd addr len offset).2.slots i = s.slots i)
      ∧ (prep_rw s opcode fd addr len offset).2.slots (s.sqe_tail &&& s.kring_mask)
          = SqEntry.shaped opcode fd addr len offset
      ∧ ((prep_rw s opcode fd addr len offset).2.khead_shadow = s.khead_shadow
         ∨ (prep_rw s opcode fd addr len offset).2.khead_shadow = s.khead)) := by
  by_cases h1 : wsub s.sqe_tail s.khead_shadow = s.kring_entries
  · by_cases h2 : wsub s.sqe_tail s.khead = s.kring_entries
    · simp [prep_rw, vacate_entry, h1, h2]
    · constructor
      · intro hfalse
        simp [prep_rw, vacate_entry, h1, h2] at hfalse
      · intro _
        refine ⟨by simp [prep_rw, vacate_entry, h1, h2],
          by simp [prep_rw, vacate_entry, h1, h2],
          by simp [prep_rw, vacate_entry, h1, h2],
          by simp [prep_rw, vacate_entry, h1, h2],
          ?_, ?_, Or.inr (by simp [prep_rw, vacate_entry, h1, h2])⟩
        · intro i hi
          simp [prep_rw, vacate_entry, h1, h2, hi]
        · simp [prep_rw, vacate_entry, h1, h2]
  · constructor
    · intro hfalse
      simp [prep_rw, vacate_entry, h1] at hfalse
    · intro _
      refine ⟨by simp [prep_rw, vacate_entry, h1],
        by simp [prep_rw, vacate_entry, h1],
        by simp [prep_rw, vacate_entry, h1],
        by simp [prep_rw, vacate_entry, h1],
        ?_, ?_, Or.inl (by simp [prep_rw, vacate_entry, h1])⟩
      · intro i hi
        simp [prep_rw, vacate_entry, h1, hi]
      · simp [prep_rw, vacate_entry, h1]

/-- Spot check for C10: a successful `prep_rw` on a fresh ring advances
`sqe_tail` to 1 and writes the shaped header into slot 0. -/
theorem C10_prep_rw_frame_spot :
    (prep_rw sqExample 5 3 7 9 11).1 = true ∧
    (prep_rw sqExample 5 3 7 9 11).2.sqe_tail = 1 ∧
    (prep_rw sqExample 5 3 7 9 11).2.slots 0 = SqEntry.shaped 5 3 7 9 11 := by
  have h := (C10_prep_rw_frame sqExample 5 3 7 9 11).2 (by decide)
  exact ⟨by decide, h.1, h.2.2.2.2.2.1⟩

/-! ### Completion queue view (src/cq.rs) -/

/-- `cq::Entry` (src/cq.rs lines 33-39): user-data token, signed result,
flags word. -/
structure CqEntry where
  user_data : Nat
  res : Int
  flags : Nat
deriving DecidableEq

/-- `Queue::UDATA_TIMEOUT = -1i64 as u64` (src/cq.rs line 83), the
reserved timeout sentinel. -/
def UDATA_TIMEOUT : Nat := 18446744073709551615

/-- `cq::Queue` (src/cq.rs lines 66-80): shared head/tail/flags/overflow
words, geometry, entry array base and the private shadows.  `kflags` is
optional: it is absent when the kernel reported a zero CQ flags offset
(src/cq.rs lines 93-97). -/
structure CqState where
  khead : Nat
  ktail : Nat
  kring_mask : Nat
  kring_entries : Nat
  kflags : Option Nat
  koverflow : Nat
  cqes : Nat → CqEntry
  khead_shadow : Nat
  ktail_shadow : Nat

/-- `Queue::advance` (src/cq.rs lines 120-126): for positive `n`, add `n`
(wrapping) to the private head shadow and store it to the shared head
word (release). -/
def advance (s : CqState) (n : Nat) : CqState :=
  if 0 < n then
    { s with khead_shadow := wadd s.khead_shadow n, khead := wadd s.khead_shadow n }
  else s

/-- Modelled from the spec: `sys::cvt` as called by `Queue::peek_cqe`
(src/cq.rs line 171).  The module that defines it is not among the source
files (src/syscall.rs only carries a module-private analogue for the
syscall wrappers), so it is taken from the spec's failure-semantics
section: a negative result is surfaced as an OS error carrying that
result, and a non-negative result is success. -/
def cvt (res : Int) : Except Int Unit :=
  if 0 ≤ res then Except.ok () else Except.error res

/-- The head == tail fast-path reload of `peek_cqe` (src/cq.rs lines
157-161): when the private head equals the private tail, the shared tail
is re-loaded (acquire) into the tail shadow. -/
def cq_reload (s : CqState) : CqState :=
  if s.khead_shadow = s.ktail_shadow then { s with ktail_shadow := s.ktail } else s

/-- The entry `peek_cqe` dereferences: slot `khead_shadow & kring_mask`
(src/cq.rs lines 163-167), after the conditional reload. -/
def cq_hd_entry (s : CqState) : CqEntry :=
  (cq_reload s).cqes ((cq_reload s).khead_shadow &&& (cq_reload s).kring_mask)

inductive PeekResult where
  | found (e : CqEntry)
  | empty
  | oserr (code : Int)
  | fuelOut
deriving DecidableEq

/-- `Queue::peek_cqe` (src/cq.rs lines 155-176), with an explicit fuel for
the loop.  Each iteration: if the head shadow equals the tail shadow,
re-load the shared tail and, if still equal, return no entry; otherwise
dereference the head slot; a sentinel entry is consumed by `advance(1)`
and its result pushed through `cvt` (negative ⇒ error, otherwise the loop
continues); a non-sentinel entry is returned without advancing. -/
def peek_cqe : Nat → CqState → PeekResult × CqState
  | 0, s => (PeekResult.fuelOut, s)
  | fuel + 1, s =>
    if (cq_reload s).khead_shadow = (cq_reload s).ktail_shadow then
      (PeekResult.empty, cq_reload s)
    else if (cq_hd_entry s).user_data = UDATA_TIMEOUT then
      match cvt (cq_hd_entry s).res with
      | Except.error c => (PeekResult.oserr c, advance (cq_reload s) 1)
      | Except.ok _ => peek_cqe fuel (advance (cq_reload s) 1)
    else (PeekResult.found (cq_hd_entry s), cq_reload s)

theorem cq_reload_khead_shadow (s : CqState) :
    (cq_reload s).khead_shadow = s.khead_shadow := by
  unfold cq_reload; split <;> rfl

theorem cq_reload_cqes (s : CqState) : (cq_reload s).cqes = s.cqes := by
  unfold cq_reload; split <;> rfl

theorem cq_reload_kring_mask (s : CqState) :
    (cq_reload s).kring_mask = s.kring_mask := by
  unfold cq_reload; split <;> rfl

theorem cq_reload_of_ne (s : CqState) (h : s.khead_shadow ≠ s.ktail_shadow) :
    cq_reload s = s := if_neg h

theorem advance_cqes (s : CqState) (n : Nat) : (advance s n).cqes = s.cqes := by
  unfold advance; split <;> rfl

/-- C2: (i) `peek_cqe` never returns an entry whose user-data is the
reserved timeout sentinel, for any fuel and any state; (ii) when the head
slot holds a sentinel entry, `peek_cqe` consumes it by advancing the head
past it, returning an OS error built from the entry's result when that
result is negative and otherwise continuing the loop with the advanced
head; (iii) advancing by one bumps both the head shadow and the shared
head word by one (wrapping). -/
theorem C2_peek_cqe_sentinel_consumed :
    (∀ (fuel : Nat) (s s' : CqState) (e : CqEntry),
        peek_cqe fuel s = (PeekResult.found e, s') → e.user_data ≠ UDATA_TIMEOUT)
    ∧ (∀ (fuel : Nat) (s : CqState),
        s.khead_shadow ≠ s.ktail_shadow →
        (s.cqes (s.khead_shadow &&& s.kring_mask)).user_data = UDATA_TIMEOUT →
        peek_cqe (fuel + 1) s =
          (if (s.cqes (s.khead_shadow &&& s.kring_mask)).res < 0
           then (PeekResult.oserr (s.cqes (s.khead_shadow &&& s.kring_mask)).res,
                 advance s 1)
           else peek_cqe fuel (advance s 1)))
    ∧ (∀ s : CqState,
        (advance s 1).khead_shadow = wadd s.khead_shadow 1
        ∧ (advance s 1).khead = wadd s.khead_shadow 1) := by
  refine ⟨?_, ?_, ?_⟩
  · intro fuel
    induction fuel with
    | zero =>
        intro s s' e h
        simp [peek_cqe] at h
    | succ n ih =>
        intro s s' e h
        rw [peek_cqe] at h
        by_cases h1 : (cq_reload s).khead_shadow = (cq_reload s).ktail_shadow
        · rw [if_pos h1] at h
          simp at h
        · rw [if_neg h1] at h
          by_cases h2 : (cq_hd_entry s).user_data = UDATA_TIMEOUT
          · rw [if_pos h2] at h
            by_cases h3 : 0 ≤ (cq_hd_entry s).res
            · simp only [cvt, if_pos h3] at h
              exact ih _ _ _ h
            · simp only [cvt, if_neg h3] at h
              simp at h
          · rw [if_neg h2] at h
            have he : e = cq_hd_entry s := by
              have hfst := congrArg Prod.fst h
              simpa using hfst.symm
            rw [he]
            exact h2
  · intro fuel s h1 h2
    have hrel : cq_reload s = s := cq_reload_of_ne s h1
    have hne : (cq_reload s).khead_shadow ≠ (cq_reload s).ktail_shadow := by
      rw [hrel]; exact h1
    have hhd : cq_hd_entry s = s.cqes (s.khead_shadow &&& s.kring_mask) := by
      rw [cq_hd_entry, hrel]
    rw [peek_cqe, if_neg hne, hhd, if_pos h2, hrel]
    by_cases h3 : 0 ≤ (s.cqes (s.khead_shadow &&& s.kring_mask)).res
    · have h3' : ¬ (s.cqes (s.khead_shadow &&& s.kring_mask)).res < 0 :=
        not_lt.mpr h3
      simp only [cvt, if_pos h3, if_neg h3']
    · have h3' : (s.cqes (s.khead_shadow &&& s.kring_mask)).res < 0 :=
        not_le.mp h3
      simp only [cvt, if_neg h3, if_pos h3']
  · intro s
    constructor <;> simp [advance]

/-- A concrete completion view whose head slot holds a sentinel entry with
result `-62` (`-ETIME`) and whose next slot holds a user completion. -/
def cqExampleSentinel : CqState :=
  { khead := 0, ktail := 2, kring_mask := 3, kring_entries := 4,
    kflags := some 0, koverflow := 0,
    cqes := fun i => if i = 0 then { user_data := UDATA_TIMEOUT, res := -62, flags := 0 }
                     else { user_data := 42, res := 0, flags := 0 },
    khead_shadow := 0, ktail_shadow := 2 }

/-- Spot check for C2: peeking past a sentinel entry with negative result
surfaces the OS error and advances the head. -/
theorem C2_peek_cqe_sentinel_consumed_spot :
    (peek_cqe 2 cqExampleSentinel).1 = PeekResult.oserr (-62)
    ∧ (peek_cqe 2 cqExampleSentinel).2.khead_shadow = 1 := by
  have h := C2_peek_cqe_sentinel_consumed.2.1 1 cqExampleSentinel
    (by decide) (by decide)
  rw [h]
  decide

/-! ### Eventfd toggle (src/cq.rs lines 128-153) -/

/-- `Queue::F_EVENTFD_DISABLED = 1 << 0` (src/cq.rs line 84). -/
def F_EVENTFD_DISABLED : Nat := 1

/-- `libc::EOPNOTSUPP`. -/
def EOPNOTSUPP : Int := 95

/-- `Queue::eventfd_enabled` (src/cq.rs lines 128-134): when the flags
word is absent the view reports enabled; otherwise bit 0 clear means
enabled. -/
def eventfd_enabled : Option Nat → Bool
  | some f => decide (f &&& F_EVENTFD_DISABLED = 0)
  | none => true

/-- `Queue::toggle_eventfd` (src/cq.rs lines 136-153), returning the
resulting CQ flags word in place of the relaxed store.  If the requested
state already equals `eventfd_enabled()` it returns success at once;
otherwise, with a flags word present, bit 0 is cleared (enable) or set
(disable); with no flags word it fails with `EOPNOTSUPP`. -/
def toggle_eventfd (kflags : Option Nat) (enabled : Bool) : Except Int (Option Nat) :=
  if enabled = eventfd_enabled kflags then Except.ok kflags
  else
    match kflags with
    | some f =>
        Except.ok (some (if enabled then f &&& 4294967294
                         else f ||| F_EVENTFD_DISABLED))
    | none => Except.error EOPNOTSUPP

/-- Counterexample for C8: with a zero CQ flags offset (no flags word),
requesting the *enabled* state succeeds (the early same-state return
fires, because an absent flags word reports enabled); it does not return
`EOPNOTSUPP` as the claim states for every requested state. -/
theorem C8_toggle_eventfd_cx :
    toggle_eventfd none true = Except.ok none
    ∧ toggle_eventfd none true ≠ Except.error EOPNOTSUPP := by
  constructor
  · rfl
  · intro h
    simp [toggle_eventfd, eventfd_enabled] at h

/-- C8 (amended): `toggle_eventfd` returns `EOPNOTSUPP` exactly when the
flags word is absent and the request is to disable; an absent flags word
with a request to enable succeeds immediately (the view already reports
enabled).  When the flags word is present the call succeeds and the
resulting word's bit 0 (eventfd-disabled) is clear exactly when enabling
was requested. -/
theorem C8_toggle_eventfd_chars (kflags : Option Nat) (enabled : Bool) :
    (toggle_eventfd kflags enabled = Except.error EOPNOTSUPP ↔
      kflags = none ∧ enabled = false)
    ∧ (kflags = none → enabled = true →
        toggle_eventfd kflags enabled = Except.ok none)
    ∧ (∀ f, kflags = some f →
        ∃ g, toggle_eventfd kflags enabled = Except.ok (some g)
          ∧ g.testBit 0 = !enabled) := by
  cases kflags with
  | none =>
      cases enabled <;>
        simp [toggle_eventfd, eventfd_enabled, EOPNOTSUPP]
  | some f =>
      refine ⟨?_, ?_, ?_⟩
      · constructor
        · intro h
          by_cases hc : enabled = eventfd_enabled (some f) <;>
            simp [toggle_eventfd, hc] at h
        · rintro ⟨h, _⟩
          simp at h
      · intro h
        simp at h
      · intro f' hf'
        have hff : f' = f := by
          injection hf' with hff
          exact hff.symm
        subst hff
        by_cases hc : enabled = eventfd_enabled (some f')
        · refine ⟨f', by simp [toggle_eventfd, hc], ?_⟩
          have hb : enabled = decide (f' &&& 1 = 0) := by
            simpa [eventfd_enabled, F_EVENTFD_DISABLED] using hc
          have hmod : f' &&& 1 = f' % 2 := Nat.and_one_is_mod f'
          by_cases hz : f' % 2 = 0
          · have : enabled = true := by
              rw [hb, hmod, hz]; rfl
            rw [this]
            simp [Nat.testBit_zero, Nat.mod_two_eq_zero_or_one, hz]
          · have hone : f' % 2 = 1 := by omega
            have : enabled = false := by
              rw [hb, hmod, hone]; rfl
            rw [this]
            simp [Nat.testBit_zero, hone]
        · cases enabled with
          | true =>
              refine ⟨f' &&& 4294967294, by simp [toggle_eventfd, hc], ?_⟩
              simp [Nat.testBit_land]
          | false =>
              refine ⟨f' ||| F_EVENTFD_DISABLED,
                by simp [toggle_eventfd, hc], ?_⟩
              simp [F_EVENTFD_DISABLED, Nat.testBit_lor]

/-- Spot check for C8: with no flags word, disabling fails with
`EOPNOTSUPP` and enabling succeeds. -/
theorem C8_toggle_eventfd_chars_spot :
    toggle_eventfd none false = Except.error EOPNOTSUPP
    ∧ toggle_eventfd none true = Except.ok none :=
  ⟨(C8_toggle_eventfd_chars none false).1.mpr ⟨rfl, rfl⟩,
   (C8_toggle_eventfd_chars none true).2.1 rfl rfl⟩

/-! ### The enter decision (src/uring.rs lines 850-860) -/

/-- `Setup::IOPOLL = 1 << 0` (src/params.rs line 14). -/
def SETUP_IOPOLL : Nat := 1

/-- `Setup::SQPOLL = 1 << 1` (src/params.rs line 15). -/
def SETUP_SQPOLL : Nat := 2

/-- `Enter::GETEVENTS = 1 << 0` (src/uring.rs line 144). -/
def ENTER_GETEVENTS : Nat := 1

/-- `Enter::SQ_WAKEUP = 1 << 1` (src/uring.rs line 145). -/
def ENTER_SQ_WAKEUP : Nat := 2

/-- `Uring::need_enter` (src/uring.rs lines 850-860): if SQPOLL is absent
and the submitted count is positive, return true at once (without
touching the enter-flags); otherwise, if the shared SQ flags word shows
NEED_WAKEUP, insert `SQ_WAKEUP` into the enter-flags and return true;
otherwise return false. -/
def need_enter (setupFlags sqKflags submitted enterFlags : Nat) : Bool × Nat :=
  if setupFlags &&& SETUP_SQPOLL = 0 ∧ 0 < submitted then (true, enterFlags)
  else if need_wakeup sqKflags then (true, enterFlags ||| ENTER_SQ_WAKEUP)
  else (false, enterFlags)

/-- Counterexample for C3: with SQPOLL absent, one submitted entry and the
NEED_WAKEUP bit set — i.e. case (b) of the claim holds — `need_enter`
returns true through the plain-enter branch and leaves the enter-flags
unchanged: the SQ_WAKEUP bit is not set, contradicting the claim that in
case (b) it is always set. -/
theorem C3_need_enter_cx :
    need_wakeup 1 = true
    ∧ (need_enter 0 1 1 0).1 = true
    ∧ (need_enter 0 1 1 0).2 &&& ENTER_SQ_WAKEUP = 0 := by
  decide

/-- C3 (amended): `need_enter` returns true exactly when (a) SQPOLL is
absent and the submitted count is positive, or (b) the shared SQ flags
word has the NEED_WAKEUP bit set; it sets the SQ_WAKEUP bit in the
caller's enter-flags exactly when (b) holds and (a) does not (the wakeup
test is only reached when the plain-enter branch does not fire); in every
other case the enter-flags are returned unchanged. -/
theorem C3_need_enter_chars (setupFlags sqKflags submitted enterFlags : Nat) :
    ((need_enter setupFlags sqKflags submitted enterFlags).1 = true ↔
      ((setupFlags &&& SETUP_SQPOLL = 0 ∧ 0 < submitted)
        ∨ need_wakeup sqKflags = true))
    ∧ (need_enter setupFlags sqKflags submitted enterFlags).2 =
        (if ¬(setupFlags &&& SETUP_SQPOLL = 0 ∧ 0 < submitted)
            ∧ need_wakeup sqKflags = true
         then enterFlags ||| ENTER_SQ_WAKEUP else enterFlags) := by
  by_cases ha : setupFlags &&& SETUP_SQPOLL = 0 ∧ 0 < submitted
  · by_cases hb : need_wakeup sqKflags = true <;>
      simp [need_enter, ha, hb]
  · by_cases hb : need_wakeup sqKflags = true <;>
      simp [need_enter, ha, hb]

/-- C1 (the code evaluated at the failing inputs): the wrappers pass 426
for setup, 427 for enter and 425 for register — not 425/426/427 as the
claim (and the Linux x86-64 ABI the constants' names refer to) states. -/
theorem C1_syscall_numbers_shifted :
    (io_uring_setup_trace 4).1 = 426
    ∧ (io_uring_enter_trace 3 1 0 0).1 = 427
    ∧ (io_uring_register_trace 3 8 256).1 = 425
    ∧ ¬((io_uring_setup_trace 4).1 = 425
        ∧ (io_uring_enter_trace 3 1 0 0).1 = 426
        ∧ (io_uring_register_trace 3 8 256).1 = 427) := by
  decide

/-- C6 (the code evaluated at the failing input): on a little-endian host
the mask is stored unchanged, but on a big-endian host the encoder
applies `u32::reverse_bits` — a bit reversal, not the byte swap that
conversion to little-endian order requires: for mask `0x0001` it stores
`0x8000_0000` where the byte swap gives `0x0100_0000`. -/
theorem C6_poll_events_bit_reversal :
    set_poll_events false 1 = 1
    ∧ set_poll_events true 1 = 2147483648
    ∧ swapBytes32 1 = 16777216
    ∧ set_poll_events true 1 ≠ swapBytes32 1 := by
  decide

/-- Counterexample for C7: with three entries configured,
`UringBuilder::try_build` passes 3 — not the power-of-two round-up 4 — as
the entries argument of the setup syscall. -/
theorem C7_entries_cx :
    (UringBuilder.new 3).tryBuildSetupTrace.2 = 3
    ∧ nextPow2 3 = 4
    ∧ (UringBuilder.new 3).tryBuildSetupTrace.2 ≠ nextPow2 3 := by
  decide

/-- C7 (amended): `UringBuilder::try_build` passes the configured entry
count verbatim to the setup syscall (no rounding on this path); the
power-of-two round-up exists only in the separate `IoUringBuilder` of
src/lib.rs, whose `entries` setter stores `next_power_of_two` of the
requested count. -/
theorem C7_entries_passed_verbatim (n : Nat) :
    (UringBuilder.new n).tryBuildSetupTrace = (NR_io_uring_setup, n)
    ∧ ioUringBuilderEntriesField n = nextPow2 n :=
  ⟨rfl, rfl⟩

/-! ### The reap loop `get_cqe` (src/uring.rs lines 801-848)

The kernel side of `io_uring_enter` is abstracted by an oracle: a list of
results, one consumed per syscall, each either an accepted count or an
errno.  `nsyscalls` counts the enter syscalls actually made. -/

inductive GetResult where
  | got (e : CqEntry)
  | oserr (code : Int)
  | fuelOut
deriving DecidableEq

/-- `libc::EAGAIN`. -/
def EAGAIN : Int := 11

/-- The ring driver state `get_cqe` runs against: the CQ view, the setup
flags, the shared SQ flags word (read by `need_enter`), the enter oracle
and the syscall counter. -/
structure RingCtx where
  cq : CqState
  setupFlags : Nat
  sqKflags : Nat
  enters : List (Except Int Nat)
  nsyscalls : Nat

/-- Pop the next oracle result (an exhausted oracle answers "accepted 0"). -/
def takeEnter : List (Except Int Nat) → Except Int Nat × List (Except Int Nat)
  | [] => (Except.ok 0, [])
  | r :: rest => (r, rest)

/-- The enter-flags computed by one `get_cqe` iteration (src/uring.rs
lines 826-831): `GETEVENTS` when `wait_nr > 0`, then `need_enter`'s
insertion (its boolean result is discarded at this call site). -/
def get_cqe_enter_flags (setupFlags sqKflags submit wait_nr : Nat) : Nat :=
  let flags0 := if 0 < wait_nr then ENTER_GETEVENTS else 0
  if 0 < submit then (need_enter setupFlags sqKflags submit flags0).2 else flags0

inductive LoopStep where
  | done (r : GetResult) (ctx : RingCtx)
  | next (submit wait_nr ret : Nat) (ctx : RingCtx)

/-- The post-syscall bookkeeping of one `get_cqe` iteration (src/uring.rs
lines 835-847): if the accepted count equals the pending submit count,
zero the submit count and — unless IOPOLL is set — the wait count;
otherwise subtract the accepted count from the submit count.  Then, if an
entry was peeked this iteration, advance the CQ head by one and return
the copied entry; otherwise loop. -/
def get_cqe_finish (submit wait_nr ret : Nat) (ctx : RingCtx)
    (peeked : Option CqEntry) : LoopStep :=
  let submit' := if ret = submit then 0 else submit - ret
  let wait_nr' :=
    if ret = submit then
      (if ctx.setupFlags &&& SETUP_IOPOLL = 0 then 0 else wait_nr)
    else wait_nr
  match peeked with
  | some e => LoopStep.done (GetResult.got e) { ctx with cq := advance ctx.cq 1 }
  | none => LoopStep.next submit' wait_nr' ret ctx

/-- The syscall decision of one `get_cqe` iteration (src/uring.rs lines
832-834): when `wait_nr > 0 || submit > 0`, make one enter syscall
(consuming one oracle result; an errno from it is returned to the
caller); otherwise keep the stale `ret`. -/
def get_cqe_tail (submit wait_nr ret flags : Nat) (ctx : RingCtx)
    (peeked : Option CqEntry) : LoopStep :=
  if 0 < wait_nr ∨ 0 < submit then
    match takeEnter ctx.enters with
    | (Except.error c, rest) =>
        LoopStep.done (GetResult.oserr c)
          { ctx with enters := rest, nsyscalls := ctx.nsyscalls + 1 }
    | (Except.ok n, rest) =>
        get_cqe_finish submit wait_nr n
          { ctx with enters := rest, nsyscalls := ctx.nsyscalls + 1 } peeked
  else get_cqe_finish submit wait_nr ret ctx peeked

/-- The `get_cqe` loop (src/uring.rs lines 801-848), fuelled.  Each
iteration peeks (propagating a peek error), returns `EAGAIN` when nothing
was peeked and both `to_wait` and the pending submit count are zero,
decrements the wait count when an entry was peeked, computes the
enter-flags, makes the syscall when needed, adjusts the counts, and
returns the peeked entry (advancing the CQ head by one) or loops. -/
def get_cqe_loop : Nat → Nat → Nat → Nat → Nat → RingCtx → GetResult × RingCtx
  | 0, _, _, _, _, ctx => (GetResult.fuelOut, ctx)
  | fuel + 1, to_wait, submit, wait_nr, ret, ctx =>
    match peek_cqe (fuel + 1) ctx.cq with
    | (PeekResult.fuelOut, cq') => (GetResult.fuelOut, { ctx with cq := cq' })
    | (PeekResult.oserr c, cq') => (GetResult.oserr c, { ctx with cq := cq' })
    | (PeekResult.empty, cq') =>
        if to_wait = 0 ∧ submit = 0 then
          (GetResult.oserr EAGAIN, { ctx with cq := cq' })
        else
          match get_cqe_tail submit wait_nr ret
              (get_cqe_enter_flags ctx.setupFlags ctx.sqKflags submit wait_nr)
              { ctx with cq := cq' } none with
          | LoopStep.done r ctx' => (r, ctx')
          | LoopStep.next submit' wait_nr' ret' ctx' =>
              get_cqe_loop fuel to_wait submit' wait_nr' ret' ctx'
    | (PeekResult.found e, cq') =>
        match get_cqe_tail submit (wait_nr - 1) ret
            (get_cqe_enter_flags ctx.setupFlags ctx.sqKflags submit (wait_nr - 1))
            { ctx with cq := cq' } (some e) with
        | LoopStep.done r ctx' => (r, ctx')
        | LoopStep.next submit' wait_nr' ret' ctx' =>
            get_cqe_loop fuel to_wait submit' wait_nr' ret' ctx'

/-- `Uring::get_cqe`'s entry point: `wait_nr` starts at `to_wait` and the
stale accepted count at 0 (src/uring.rs lines 807-808). -/
def get_cqe (fuel submit to_wait : Nat) (ctx : RingCtx) : GetResult × RingCtx :=
  get_cqe_loop fuel to_wait submit to_wait 0 ctx

/-- `Uring::wait_cqe_nr` (src/uring.rs lines 776-779):
`get_cqe(0, wait_nr, None)`. -/
def wait_cqe_nr (fuel wait_nr : Nat) (ctx : RingCtx) : GetResult × RingCtx :=
  get_cqe fuel 0 wait_nr ctx

theorem cq_hd_entry_eq (s : CqState) :
    cq_hd_entry s = s.cqes (s.khead_shadow &&& s.kring_mask) := by
  rw [cq_hd_entry, cq_reload_cqes, cq_reload_khead_shadow, cq_reload_kring_mask]

/-- A CQ state whose sentinel entries all carry non-negative results never
makes `peek_cqe` return an OS error. -/
theorem peek_cqe_no_oserr : ∀ (fuel : Nat) (s : CqState),
    (∀ i, (s.cqes i).user_data = UDATA_TIMEOUT → 0 ≤ (s.cqes i).res) →
    ∀ (c : Int) (s' : CqState), peek_cqe fuel s ≠ (PeekResult.oserr c, s') := by
  intro fuel
  induction fuel with
  | zero =>
      intro s hs c s' h
      simp [peek_cqe] at h
  | succ n ih =>
      intro s hs c s' h
      rw [peek_cqe] at h
      by_cases h1 : (cq_reload s).khead_shadow = (cq_reload s).ktail_shadow
      · rw [if_pos h1] at h
        simp at h
      · rw [if_neg h1] at h
        by_cases h2 : (cq_hd_entry s).user_data = UDATA_TIMEOUT
        · have hres : 0 ≤ (cq_hd_entry s).res := by
            rw [cq_hd_entry_eq]
            exact hs _ (by rw [← cq_hd_entry_eq]; exact h2)
          rw [if_pos h2] at h
          simp only [cvt, if_pos hres] at h
          have hs' : ∀ i,
              ((advance (cq_reload s) 1).cqes i).user_data = UDATA_TIMEOUT →
              0 ≤ ((advance (cq_reload s) 1).cqes i).res := by
            rw [advance_cqes, cq_reload_cqes]
            exact hs
          exact ih (advance (cq_reload s) 1) hs' c s' h
        · rw [if_neg h2] at h
          simp at h

/-- `peek_cqe` never rewrites the entry array. -/
theorem peek_cqe_cqes : ∀ (fuel : Nat) (s : CqState),
    ((peek_cqe fuel s).2).cqes = s.cqes := by
  intro fuel
  induction fuel with
  | zero => intro s; rfl
  | succ n ih =>
      intro s
      rw [peek_cqe]
      by_cases h1 : (cq_reload s).khead_shadow = (cq_reload s).ktail_shadow
      · rw [if_pos h1]
        exact cq_reload_cqes s
      · rw [if_neg h1]
        by_cases h2 : (cq_hd_entry s).user_data = UDATA_TIMEOUT
        · rw [if_pos h2]
          by_cases h3 : 0 ≤ (cq_hd_entry s).res
          · simp only [cvt, if_pos h3]
            rw [ih, advance_cqes, cq_reload_cqes]
          · simp only [cvt, if_neg h3]
            rw [advance_cqes, cq_reload_cqes]
        · rw [if_neg h2]
          exact cq_reload_cqes s

/-- Case split for the syscall part of a `get_cqe` iteration ending the
loop: either an enter syscall was made (the counter grew by one), or no
syscall was made, in which case the iteration can only end by returning
a peeked entry. -/
theorem get_cqe_tail_done_cases (submit wait_nr ret flags : Nat) (ctx : RingCtx)
    (peeked : Option CqEntry) (r : GetResult) (ctx' : RingCtx)
    (h : get_cqe_tail submit wait_nr ret flags ctx peeked = LoopStep.done r ctx') :
    ctx'.nsyscalls = ctx.nsyscalls + 1
    ∨ (ctx'.nsyscalls = ctx.nsyscalls
       ∧ ∃ e, peeked = some e ∧ r = GetResult.got e) := by
  by_cases hs : 0 < wait_nr ∨ 0 < submit
  · cases hen : ctx.enters with
    | nil =>
        cases peeked with
        | some e =>
            simp [get_cqe_tail, hs, hen, takeEnter, get_cqe_finish] at h
            exact Or.inl (by rw [← h.2])
        | none =>
            simp [get_cqe_tail, hs, hen, takeEnter, get_cqe_finish] at h
    | cons rr rest =>
        cases rr with
        | error c =>
            simp [get_cqe_tail, hs, hen, takeEnter] at h
            exact Or.inl (by rw [← h.2])
        | ok nacc =>
            cases peeked with
            | some e =>
                simp [get_cqe_tail, hs, hen, takeEnter, get_cqe_finish] at h
                exact Or.inl (by rw [← h.2])
            | none =>
                simp [get_cqe_tail, hs, hen, takeEnter, get_cqe_finish] at h
  · cases peeked with
    | some e =>
        simp [get_cqe_tail, hs, get_cqe_finish] at h
        exact Or.inr ⟨by rw [← h.2], e, rfl, h.1.symm⟩
    | none =>
        simp [get_cqe_tail, hs, get_cqe_finish] at h

/-- Case split for the syscall part of a `get_cqe` iteration continuing
the loop: nothing was peeked, the CQ view and flag words are untouched,
and either a syscall was made or the whole iteration was a no-op on the
driver state. -/
theorem get_cqe_tail_next_cases (submit wait_nr ret flags : Nat) (ctx : RingCtx)
    (peeked : Option CqEntry) (s' w' r' : Nat) (ctx' : RingCtx)
    (h : get_cqe_tail submit wait_nr ret flags ctx peeked
          = LoopStep.next s' w' r' ctx') :
    peeked = none ∧ ctx'.cq = ctx.cq
    ∧ (ctx'.nsyscalls = ctx.nsyscalls + 1
       ∨ (ctx'.nsyscalls = ctx.nsyscalls ∧ wait_nr = 0 ∧ submit = 0 ∧ ctx' = ctx)) := by
  by_cases hs : 0 < wait_nr ∨ 0 < submit
  · cases hen : ctx.enters with
    | nil =>
        cases peeked with
        | some e =>
            simp [get_cqe_tail, hs, hen, takeEnter, get_cqe_finish] at h
        | none =>
            simp [get_cqe_tail, hs, hen, takeEnter, get_cqe_finish] at h
            exact ⟨rfl, by rw [← h.2.2.2], Or.inl (by rw [← h.2.2.2])⟩
    | cons rr rest =>
        cases rr with
        | error c =>
            simp [get_cqe_tail, hs, hen, takeEnter] at h
        | ok nacc =>
            cases peeked with
            | some e =>
                simp [get_cqe_tail, hs, hen, takeEnter, get_cqe_finish] at h
            | none =>
                simp [get_cqe_tail, hs, hen, takeEnter, get_cqe_finish] at h
                exact ⟨rfl, by rw [← h.2.2.2], Or.inl (by rw [← h.2.2.2])⟩
  · cases peeked with
    | some e =>
        simp [get_cqe_tail, hs, get_cqe_finish] at h
    | none =>
        have hw : wait_nr = 0 := by omega
        have hsub : submit = 0 := by omega
        simp [get_cqe_tail, hs, get_cqe_finish] at h
        exact ⟨rfl, by rw [← h.2.2.2], Or.inr ⟨by rw [← h.2.2.2], hw, hsub, h.2.2.2.symm⟩⟩

theorem get_cqe_loop_succ_fuelOut (n to_wait submit wait_nr ret : Nat)
    (ctx : RingCtx) (cq' : CqState)
    (hpk : peek_cqe (n + 1) ctx.cq = (PeekResult.fuelOut, cq')) :
    get_cqe_loop (n + 1) to_wait submit wait_nr ret ctx
      = (GetResult.fuelOut, { ctx with cq := cq' }) := by
  rw [get_cqe_loop, hpk]

theorem get_cqe_loop_succ_oserr (n to_wait submit wait_nr ret : Nat)
    (ctx : RingCtx) (cq' : CqState) (c : Int)
    (hpk : peek_cqe (n + 1) ctx.cq = (PeekResult.oserr c, cq')) :
    get_cqe_loop (n + 1) to_wait submit wait_nr ret ctx
      = (GetResult.oserr c, { ctx with cq := cq' }) := by
  rw [get_cqe_loop, hpk]

theorem get_cqe_loop_succ_empty (n to_wait submit wait_nr ret : Nat)
    (ctx : RingCtx) (cq' : CqState)
    (hpk : peek_cqe (n + 1) ctx.cq = (PeekResult.empty, cq')) :
    get_cqe_loop (n + 1) to_wait submit wait_nr ret ctx
      = (if to_wait = 0 ∧ submit = 0 then
          (GetResult.oserr EAGAIN, { ctx with cq := cq' })
        else
          match get_cqe_tail submit wait_nr ret
              (get_cqe_enter_flags ctx.setupFlags ctx.sqKflags submit wait_nr)
              { ctx with cq := cq' } none with
          | LoopStep.done r ctx' => (r, ctx')
          | LoopStep.next submit' wait_nr' ret' ctx' =>
              get_cqe_loop n to_wait submit' wait_nr' ret' ctx') := by
  rw [get_cqe_loop, hpk]

theorem get_cqe_loop_succ_found (n to_wait submit wait_nr ret : Nat)
    (ctx : RingCtx) (cq' : CqState) (e : CqEntry)
    (hpk : peek_cqe (n + 1) ctx.cq = (PeekResult.found e, cq')) :
    get_cqe_loop (n + 1) to_wait submit wait_nr ret ctx
      = (match get_cqe_tail submit (wait_nr - 1) ret
            (get_cqe_enter_flags ctx.setupFlags ctx.sqKflags submit (wait_nr - 1))
            { ctx with cq := cq' } (some e) with
        | LoopStep.done r ctx' => (r, ctx')
        | LoopStep.next submit' wait_nr' ret' ctx' =>
            get_cqe_loop n to_wait submit' wait_nr' ret' ctx') := by
  rw [get_cqe_loop, hpk]

/-- The loop never decreases the syscall counter. -/
theorem get_cqe_loop_nsyscalls_mono : ∀ (fuel to_wait submit wait_nr ret : Nat)
    (ctx : RingCtx),
    ctx.nsyscalls ≤ ((get_cqe_loop fuel to_wait submit wait_nr ret ctx).2).nsyscalls := by
  intro fuel
  induction fuel with
  | zero =>
      intro to_wait submit wait_nr ret ctx
      simp [get_cqe_loop]
  | succ n ih =>
      intro to_wait submit wait_nr ret ctx
      rcases hpk : peek_cqe (n + 1) ctx.cq with ⟨pr, cq'⟩
      cases pr with
      | fuelOut => rw [get_cqe_loop_succ_fuelOut n to_wait submit wait_nr ret ctx cq' hpk]
      | oserr c => rw [get_cqe_loop_succ_oserr n to_wait submit wait_nr ret ctx cq' c hpk]
      | found e =>
          rw [get_cqe_loop_succ_found n to_wait submit wait_nr ret ctx cq' e hpk]
          cases htl : get_cqe_tail submit (wait_nr - 1) ret
              (get_cqe_enter_flags ctx.setupFlags ctx.sqKflags submit (wait_nr - 1))
              { ctx with cq := cq' } (some e) with
          | done r ctx' =>
              show ctx.nsyscalls ≤ ctx'.nsyscalls
              rcases get_cqe_tail_done_cases _ _ _ _ _ _ _ _ htl with h1 | ⟨h1, _⟩
              · have h2 : ctx'.nsyscalls = ctx.nsyscalls + 1 := h1
                omega
              · have h2 : ctx'.nsyscalls = ctx.nsyscalls := h1
                omega
          | next s' w' r' ctx' =>
              show ctx.nsyscalls ≤ (get_cqe_loop n to_wait s' w' r' ctx').2.nsyscalls
              have hmid := ih to_wait s' w' r' ctx'
              rcases (get_cqe_tail_next_cases _ _ _ _ _ _ _ _ _ _ htl).2.2
                with h1 | ⟨h1, _⟩
              · have h2 : ctx'.nsyscalls = ctx.nsyscalls + 1 := h1
                omega
              · have h2 : ctx'.nsyscalls = ctx.nsyscalls := h1
                omega
      | empty =>
          rw [get_cqe_loop_succ_empty n to_wait submit wait_nr ret ctx cq' hpk]
          by_cases hc : to_wait = 0 ∧ submit = 0
          · simp [hc]
          · rw [if_neg hc]
            cases htl : get_cqe_tail submit wait_nr ret
                (get_cqe_enter_flags ctx.setupFlags ctx.sqKflags submit wait_nr)
                { ctx with cq := cq' } none with
            | done r ctx' =>
                show ctx.nsyscalls ≤ ctx'.nsyscalls
                rcases get_cqe_tail_done_cases _ _ _ _ _ _ _ _ htl with h1 | ⟨h1, _⟩
                · have h2 : ctx'.nsyscalls = ctx.nsyscalls + 1 := h1
                  omega
                · have h2 : ctx'.nsyscalls = ctx.nsyscalls := h1
                  omega
            | next s' w' r' ctx' =>
                show ctx.nsyscalls ≤ (get_cqe_loop n to_wait s' w' r' ctx').2.nsyscalls
                have hmid := ih to_wait s' w' r' ctx'
                rcases (get_cqe_tail_next_cases _ _ _ _ _ _ _ _ _ _ htl).2.2
                  with h1 | ⟨h1, _⟩
                · have h2 : ctx'.nsyscalls = ctx.nsyscalls + 1 := h1
                  omega
                · have h2 : ctx'.nsyscalls = ctx.nsyscalls := h1
                  omega

/-- If the loop ever returns `EAGAIN` without having made a syscall, both
the `to_wait` argument and the pending submit count were zero (sentinel
entries with negative results, whose peek errors could masquerade as any
errno, are excluded by hypothesis). -/
theorem get_cqe_loop_eagain_src : ∀ (fuel to_wait submit wait_nr ret : Nat)
    (ctx ctx2 : RingCtx),
    (∀ i, (ctx.cq.cqes i).user_data = UDATA_TIMEOUT → 0 ≤ (ctx.cq.cqes i).res) →
    get_cqe_loop fuel to_wait submit wait_nr ret ctx = (GetResult.oserr EAGAIN, ctx2) →
    ctx2.nsyscalls = ctx.nsyscalls →
    to_wait = 0 ∧ submit = 0 := by
  intro fuel
  induction fuel with
  | zero =>
      intro to_wait submit wait_nr ret ctx ctx2 hs heq hn
      simp [get_cqe_loop] at heq
  | succ n ih =>
      intro to_wait submit wait_nr ret ctx ctx2 hs heq hn
      rcases hpk : peek_cqe (n + 1) ctx.cq with ⟨pr, cq'⟩
      cases pr with
      | fuelOut =>
          rw [get_cqe_loop_succ_fuelOut n to_wait submit wait_nr ret ctx cq' hpk] at heq
          simp at heq
      | oserr c =>
          exact absurd hpk (peek_cqe_no_oserr (n + 1) ctx.cq hs c cq')
      | empty =>
          by_cases hc : to_wait = 0 ∧ submit = 0
          · exact hc
          · rw [get_cqe_loop_succ_empty n to_wait submit wait_nr ret ctx cq' hpk,
               if_neg hc] at heq
            cases htl : get_cqe_tail submit wait_nr ret
                (get_cqe_enter_flags ctx.setupFlags ctx.sqKflags submit wait_nr)
                { ctx with cq := cq' } none with
            | done r ctx' =>
                rw [htl] at heq
                replace heq : (r, ctx') = (GetResult.oserr EAGAIN, ctx2) := heq
                simp only [Prod.mk.injEq] at heq
                obtain ⟨hr, hctx⟩ := heq
                rcases get_cqe_tail_done_cases _ _ _ _ _ _ _ _ htl
                  with h1 | ⟨h1, e, hpe, hre⟩
                · have h2 : ctx'.nsyscalls = ctx.nsyscalls + 1 := h1
                  subst hctx
                  exfalso; omega
                · simp at hpe
            | next s' w' r' ctx' =>
                rw [htl] at heq
                replace heq : get_cqe_loop n to_wait s' w' r' ctx'
                    = (GetResult.oserr EAGAIN, ctx2) := heq
                obtain ⟨hpn, hcq, hd⟩ := get_cqe_tail_next_cases _ _ _ _ _ _ _ _ _ _ htl
                rcases hd with h1 | ⟨h1, hw, hsub, hctx⟩
                · have hm := get_cqe_loop_nsyscalls_mono n to_wait s' w' r' ctx'
                  rw [heq] at hm
                  have hm2 : ctx'.nsyscalls ≤ ctx2.nsyscalls := hm
                  have h2 : ctx'.nsyscalls = ctx.nsyscalls + 1 := h1
                  exfalso; omega
                · have hcq2 : ctx'.cq = cq' := hcq
                  have hcc : cq'.cqes = ctx.cq.cqes := by
                    have hp := peek_cqe_cqes (n + 1) ctx.cq
                    rw [hpk] at hp
                    exact hp
                  have hs' : ∀ i, (ctx'.cq.cqes i).user_data = UDATA_TIMEOUT →
                      0 ≤ (ctx'.cq.cqes i).res := by
                    rw [hcq2, hcc]
                    exact hs
                  have h2 : ctx'.nsyscalls = ctx.nsyscalls := h1
                  have hn' : ctx2.nsyscalls = ctx'.nsyscalls := by omega
                  have hres := ih to_wait s' w' r' ctx' ctx2 hs' heq hn'
                  exact absurd ⟨hres.1, hsub⟩ hc
      | found e =>
          rw [get_cqe_loop_succ_found n to_wait submit wait_nr ret ctx cq' e hpk] at heq
          cases htl : get_cqe_tail submit (wait_nr - 1) ret
              (get_cqe_enter_flags ctx.setupFlags ctx.sqKflags submit (wait_nr - 1))
              { ctx with cq := cq' } (some e) with
          | done r ctx' =>
              rw [htl] at heq
              replace heq : (r, ctx') = (GetResult.oserr EAGAIN, ctx2) := heq
              simp only [Prod.mk.injEq] at heq
              obtain ⟨hr, hctx⟩ := heq
              rcases get_cqe_tail_done_cases _ _ _ _ _ _ _ _ htl
                with h1 | ⟨h1, e', hpe, hre⟩
              · have h2 : ctx'.nsyscalls = ctx.nsyscalls + 1 := h1
                subst hctx
                exfalso; omega
              · have : GetResult.got e' = GetResult.oserr EAGAIN := hre.symm.trans hr
                simp at this
          | next s' w' r' ctx' =>
              obtain ⟨hpn, _, _⟩ := get_cqe_tail_next_cases _ _ _ _ _ _ _ _ _ _ htl
              simp at hpn

/-- C9: `get_cqe` produces `EAGAIN` exactly in the iteration whose peek
finds nothing while both the `to_wait` argument and the pending submit
count are zero.  (i) Any iteration satisfying that condition returns
`EAGAIN` at once; (ii) conversely, if a `get_cqe` call returns `EAGAIN`
without having made a syscall (and no sentinel completion carries a
negative result, so no peek error can collide with `EAGAIN`), then
`to_wait = 0`, `submit = 0`, and the first peek found nothing;
(iii) in particular `wait_cqe_nr` with `wait_nr = 0` on an empty
completion queue fails with `EAGAIN`, leaving the driver state — the
syscall counter included — untouched. -/
theorem C9_get_cqe_eagain :
    (∀ (fuel to_wait submit wait_nr ret : Nat) (ctx : RingCtx) (cq' : CqState),
        peek_cqe (fuel + 1) ctx.cq = (PeekResult.empty, cq') →
        to_wait = 0 → submit = 0 →
        get_cqe_loop (fuel + 1) to_wait submit wait_nr ret ctx
          = (GetResult.oserr EAGAIN, { ctx with cq := cq' }))
    ∧ (∀ (fuel submit to_wait : Nat) (ctx ctx2 : RingCtx),
        (∀ i, (ctx.cq.cqes i).user_data = UDATA_TIMEOUT → 0 ≤ (ctx.cq.cqes i).res) →
        get_cqe fuel submit to_wait ctx = (GetResult.oserr EAGAIN, ctx2) →
        ctx2.nsyscalls = ctx.nsyscalls →
        to_wait = 0 ∧ submit = 0
          ∧ (0 < fuel → ∃ cq', peek_cqe fuel ctx.cq = (PeekResult.empty, cq')))
    ∧ (∀ (fuel : Nat) (ctx : RingCtx),
        ctx.cq.khead_shadow = ctx.cq.ktail_shadow →
        ctx.cq.ktail = ctx.cq.ktail_shadow →
        wait_cqe_nr (fuel + 1) 0 ctx = (GetResult.oserr EAGAIN, ctx)) := by
  refine ⟨?_, ?_, ?_⟩
  · intro fuel to_wait submit wait_nr ret ctx cq' hpk hto hsub
    subst hto; subst hsub
    rw [get_cqe_loop_succ_empty fuel 0 0 wait_nr ret ctx cq' hpk,
       if_pos ⟨rfl, rfl⟩]
  · intro fuel submit to_wait ctx ctx2 hs heq hn
    have hmain := get_cqe_loop_eagain_src fuel to_wait submit to_wait 0 ctx ctx2 hs heq hn
    refine ⟨hmain.1, hmain.2, ?_⟩
    intro hfuel
    cases fuel with
    | zero => omega
    | succ n =>
        rcases hpk : peek_cqe (n + 1) ctx.cq with ⟨pr, cq'⟩
        cases pr with
        | empty => exact ⟨cq', rfl⟩
        | oserr c => exact absurd hpk (peek_cqe_no_oserr (n + 1) ctx.cq hs c cq')
        | fuelOut =>
            replace heq : get_cqe_loop (n + 1) to_wait submit to_wait 0 ctx
                = (GetResult.oserr EAGAIN, ctx2) := heq
            rw [get_cqe_loop_succ_fuelOut n to_wait submit to_wait 0 ctx cq' hpk] at heq
            simp at heq
        | found e =>
            replace heq : get_cqe_loop (n + 1) to_wait submit to_wait 0 ctx
                = (GetResult.oserr EAGAIN, ctx2) := heq
            rw [get_cqe_loop_succ_found n to_wait submit to_wait 0 ctx cq' e hpk] at heq
            have hw : to_wait - 1 = 0 := by omega
            have hsub : submit = 0 := hmain.2
            rw [hw, hsub] at heq
            cases htl : get_cqe_tail 0 0 0
                (get_cqe_enter_flags ctx.setupFlags ctx.sqKflags 0 0)
                { ctx with cq := cq' } (some e) with
            | done r ctx' =>
                rw [htl] at heq
                replace heq : (r, ctx') = (GetResult.oserr EAGAIN, ctx2) := heq
                simp only [Prod.mk.injEq] at heq
                rcases get_cqe_tail_done_cases _ _ _ _ _ _ _ _ htl
                  with h1 | ⟨h1, e', hpe, hre⟩
                · have h2 : ctx'.nsyscalls = ctx.nsyscalls + 1 := h1
                  have hctx : ctx' = ctx2 := heq.2
                  subst hctx
                  exfalso; omega
                · have : GetResult.got e' = GetResult.oserr EAGAIN :=
                    hre.symm.trans heq.1
                  simp at this
            | next s' w' r' ctx' =>
                obtain ⟨hpn, _, _⟩ := get_cqe_tail_next_cases _ _ _ _ _ _ _ _ _ _ htl
                simp at hpn
  · intro fuel ctx h1 h2
    have hrl : cq_reload ctx.cq = ctx.cq := by
      unfold cq_reload
      rw [if_pos h1]
      rcases hq : ctx.cq with ⟨kh, kt, km, ke, kf, ko, cqs, hsd, tsd⟩
      rw [hq] at h2
      simp only at h2
      simp [h2]
    have hpeek : peek_cqe (fuel + 1) ctx.cq = (PeekResult.empty, ctx.cq) := by
      rw [peek_cqe, hrl, if_pos h1]
    have hloop := get_cqe_loop_succ_empty fuel 0 0 0 0 ctx ctx.cq hpeek
    rw [if_pos ⟨rfl, rfl⟩] at hloop
    exact hloop

/-- A concrete empty completion view and driver context. -/
def ctxExample : RingCtx :=
  { cq := { khead := 0, ktail := 0, kring_mask := 3, kring_entries := 4,
            kflags := some 0, koverflow := 0,
            cqes := fun _ => { user_data := 42, res := 0, flags := 0 },
            khead_shadow := 0, ktail_shadow := 0 },
    setupFlags := 0, sqKflags := 0, enters := [], nsyscalls := 0 }

/-- Spot check for C9: `wait_cqe_nr(0)` on an empty ring fails with
`EAGAIN` and performs no syscall. -/
theorem C9_get_cqe_eagain_spot :
    wait_cqe_nr 1 0 ctxExample = (GetResult.oserr EAGAIN, ctxExample)
    ∧ (wait_cqe_nr 1 0 ctxExample).2.nsyscalls = 0 := by
  have h := C9_get_cqe_eagain.2.2 0 ctxExample rfl rfl
  exact ⟨h, by rw [h]; rfl⟩

end Ur
